import Mathlib

/-!
Verification of the client-side computation core of a task-management web
application: the smart-context classifier (`generateSmartContexts` in
`components/smart-contexts/ContextView.tsx`), the productivity aggregator
(`fetchProductivityData` in `components/analytics/ProductivityChart.tsx`) and
the completion statistics (`fetchCompletionStats`, same file).

Shallow embedding conventions:
* Timestamps are `Int` milliseconds since the Unix epoch (the value of
  JavaScript `Date.getTime()`).  The client's time zone is a fixed offset
  `tz` in milliseconds east of UTC, so the local wall-clock reading of an
  instant `t` is `t + tz`; the model has no daylight-saving transitions, so
  `setDate(getDate() ± k)` is adding `± k * 86400000` milliseconds.
* `toISOString().split("T")[0]`, which truncates an instant to its UTC
  calendar date, is modelled by the UTC day number `Int.fdiv t 86400000`;
  two instants produce the same ISO date string iff they have the same day
  number, and `civilFromDays`/`monthShort` recover the rendered label where
  the label itself matters.
* JavaScript `Map`/`Record` objects are association lists in key-insertion
  order, mirroring the iteration order JavaScript guarantees.
* The arithmetic of the statistics is done in `ℚ`: every division the code
  performs is exact in the reachable range, with division guarded by the
  same zero tests the source performs.
-/

namespace TaskApp

def msPerDay : Int := 86400000

def msPerHour : Int := 3600000

/-- `new Date(t).setHours(0,0,0,0)`: the instant of the most recent local
midnight at or before `t`, in the client zone of offset `tz`. -/
def localMidnight (t tz : Int) : Int := t - Int.fmod (t + tz) msPerDay

/-- The local calendar-day index of instant `t` in the client zone: two
instants share it exactly when the classifier's midnight truncation puts
them on the same local day. -/
def localDayOf (t tz : Int) : Int := Int.fdiv (t + tz) msPerDay

/-- `new Date(t).getHours()` in the client zone of offset `tz`. -/
def localHour (t tz : Int) : Int := Int.fdiv (Int.fmod (t + tz) msPerDay) msPerHour

/-- `new Date(t).toISOString().split("T")[0]` as a day number: truncation of
`t` to its UTC calendar date. -/
def dayKeyOf (t : Int) : Int := Int.fdiv t msPerDay

inductive Priority
  | low
  | medium
  | high
deriving DecidableEq, Repr

inductive Status
  | pending
  | in_progress
  | completed
deriving DecidableEq, Repr

structure Category where
  id : String
  name : String
deriving DecidableEq, Repr

/-- A task row joined with its resolved category (`TaskWithCategory` in
`ContextView.tsx`); the fields the classifier reads. -/
structure TaskWithCategory where
  id : String
  title : String
  priority : Priority
  status : Status
  due_date : Option Int
  created_at : Int
  category : Option Category
deriving DecidableEq, Repr

/-- The derived `Context` grouping of `ContextView.tsx`. -/
structure Context where
  id : String
  name : String
  tasks : List TaskWithCategory
  priority : Priority
deriving DecidableEq, Repr

/-- `l.some((t) => t.id === task.id)` in the source's exclusion checks. -/
def anyId (taskId : String) (l : List TaskWithCategory) : Bool :=
  l.any fun t => t.id == taskId

/-- Rule 1 of `generateSmartContexts`: tasks whose due date, truncated to
local midnight, equals the reference instant truncated to local midnight. -/
def dueTodayTasks (tasks : List TaskWithCategory) (now tz : Int) : List TaskWithCategory :=
  tasks.filter fun task =>
    match task.due_date with
    | none => false
    | some d => localMidnight d tz == localMidnight now tz

/-- Rule 2: remaining tasks with priority `high`, excluding (by id) the tasks
already claimed by rule 1. -/
def highPriorityTasks (tasks : List TaskWithCategory) (now tz : Int) : List TaskWithCategory :=
  tasks.filter fun task =>
    task.priority == Priority.high && !(anyId task.id (dueTodayTasks tasks now tz))

/-- Rule 3: remaining tasks with status `in_progress`, excluding (by id) the
tasks claimed by rules 1 and 2. -/
def inProgressTasks (tasks : List TaskWithCategory) (now tz : Int) : List TaskWithCategory :=
  tasks.filter fun task =>
    task.status == Status.in_progress
      && !(anyId task.id (dueTodayTasks tasks now tz))
      && !(anyId task.id (highPriorityTasks tasks now tz))

/-- The display name of the time-based bucket, from `currentTime.getHours()`. -/
def timeBasedName (now tz : Int) : String :=
  if localHour now tz < 12 then "Morning Focus"
  else if localHour now tz < 17 then "Afternoon Tasks"
  else "Evening Wrap-up"

/-- The entry of `categoryTasksMap` for key `categoryId`: the tasks carrying
that category that rules 1-3 did not claim, in input order.  An absent key is
the empty list (`map.get(k)?.some(...)` is falsy for an absent key). -/
def categoryGroup (tasks : List TaskWithCategory) (now tz : Int) (categoryId : String) :
    List TaskWithCategory :=
  tasks.filter fun task =>
    (match task.category with
     | some c => c.id == categoryId
     | none => false)
      && !(anyId task.id (dueTodayTasks tasks now tz))
      && !(anyId task.id (highPriorityTasks tasks now tz))
      && !(anyId task.id (inProgressTasks tasks now tz))

/-- The keys of `categoryTasksMap` in insertion order: category ids in order
of first occurrence among the tasks rules 1-3 did not claim. -/
def categoryIds (tasks : List TaskWithCategory) (now tz : Int) : List String :=
  tasks.foldl
    (fun ks task =>
      match task.category with
      | some c =>
          if !(anyId task.id (dueTodayTasks tasks now tz))
              && !(anyId task.id (highPriorityTasks tasks now tz))
              && !(anyId task.id (inProgressTasks tasks now tz)) then
            if ks.contains c.id then ks else ks ++ [c.id]
          else ks
      | none => ks)
    []

/-- The `maxTasks`/`mainCategoryId` scan over `categoryTasksMap` in iteration
order, updating only on a strictly larger count, from `(0, "")`. -/
def mainCategoryScan (tasks : List TaskWithCategory) (now tz : Int) : Nat × String :=
  (categoryIds tasks now tz).foldl
    (fun acc categoryId =>
      if (categoryGroup tasks now tz categoryId).length > acc.1 then
        ((categoryGroup tasks now tz categoryId).length, categoryId)
      else acc)
    (0, "")

def mainCategoryId (tasks : List TaskWithCategory) (now tz : Int) : String :=
  (mainCategoryScan tasks now tz).2

/-- `categoryTasks[0].category!.name`: the category name on the first task of
the dominant group (the source asserts both non-emptiness and the category). -/
def headCategoryName : List TaskWithCategory → String
  | [] => ""
  | t :: _ =>
      match t.category with
      | some c => c.name
      | none => ""

/-- The context rule 1 pushes. -/
def ctxDueToday (tasks : List TaskWithCategory) (now tz : Int) : Context :=
  ⟨"due-today", "Due Today", dueTodayTasks tasks now tz, Priority.high⟩

/-- The context rule 2 pushes. -/
def ctxHighPriority (tasks : List TaskWithCategory) (now tz : Int) : Context :=
  ⟨"high-priority", "High Priority", highPriorityTasks tasks now tz, Priority.high⟩

/-- The context rule 3 pushes. -/
def ctxTimeBased (tasks : List TaskWithCategory) (now tz : Int) : Context :=
  ⟨"time-based", timeBasedName now tz, inProgressTasks tasks now tz, Priority.medium⟩

/-- The context rule 4 pushes when its guard holds. -/
def ctxCategory (tasks : List TaskWithCategory) (now tz : Int) : Context :=
  ⟨"category-" ++ mainCategoryId tasks now tz,
   "Focus: " ++ headCategoryName (categoryGroup tasks now tz (mainCategoryId tasks now tz)),
   categoryGroup tasks now tz (mainCategoryId tasks now tz),
   Priority.medium⟩

/-- Rule 4's emitted bucket: one context for the dominant category when the
scan selected a key (`mainCategoryId` truthy) and its group is non-empty. -/
def categoryContexts (tasks : List TaskWithCategory) (now tz : Int) : List Context :=
  if mainCategoryId tasks now tz ≠ ""
      ∧ 0 < (categoryGroup tasks now tz (mainCategoryId tasks now tz)).length then
    [ctxCategory tasks now tz]
  else []

/-- Rule 5: tasks created strictly within the last 7 days, excluding (by id)
tasks claimed by rules 1-3 and every member of `categoryTasksMap` (any
category, not only the dominant one). -/
def recentlyCreatedTasks (tasks : List TaskWithCategory) (now tz : Int) :
    List TaskWithCategory :=
  tasks.filter fun task =>
    if anyId task.id (dueTodayTasks tasks now tz)
        || anyId task.id (highPriorityTasks tasks now tz)
        || anyId task.id (inProgressTasks tasks now tz)
        || (match task.category with
            | some c => (categoryGroup tasks now tz c.id).any fun t => t.id == task.id
            | none => false) then
      false
    else
      decide (now - 7 * msPerDay < task.created_at)

/-- Rule 6: the catch-all, excluding (by id) rules 1-3, rule 5 and every
member of `categoryTasksMap` (any category). -/
def remainingTasks (tasks : List TaskWithCategory) (now tz : Int) : List TaskWithCategory :=
  tasks.filter fun task =>
    !(anyId task.id (dueTodayTasks tasks now tz))
      && !(anyId task.id (highPriorityTasks tasks now tz))
      && !(anyId task.id (inProgressTasks tasks now tz))
      && !(anyId task.id (recentlyCreatedTasks tasks now tz))
      && !(match task.category with
           | some c => (categoryGroup tasks now tz c.id).any fun t => t.id == task.id
           | none => false)

/-- The context rule 5 pushes. -/
def ctxRecentlyCreated (tasks : List TaskWithCategory) (now tz : Int) : Context :=
  ⟨"recently-created", "Recently Added", recentlyCreatedTasks tasks now tz, Priority.low⟩

/-- The context rule 6 pushes. -/
def ctxOther (tasks : List TaskWithCategory) (now tz : Int) : Context :=
  ⟨"other", "Other Tasks", remainingTasks tasks now tz, Priority.low⟩

/-- `generateSmartContexts(tasks, currentTime)`: the six rule buckets in
order, each pushed only when non-empty. -/
def generateSmartContexts (tasks : List TaskWithCategory) (now tz : Int) : List Context :=
  (if 0 < (dueTodayTasks tasks now tz).length then [ctxDueToday tasks now tz] else [])
  ++ ((if 0 < (highPriorityTasks tasks now tz).length then [ctxHighPriority tasks now tz] else [])
  ++ ((if 0 < (inProgressTasks tasks now tz).length then [ctxTimeBased tasks now tz] else [])
  ++ (categoryContexts tasks now tz
  ++ ((if 0 < (recentlyCreatedTasks tasks now tz).length then [ctxRecentlyCreated tasks now tz]
      else [])
  ++ (if 0 < (remainingTasks tasks now tz).length then [ctxOther tasks now tz] else [])))))

/-- The six candidate contexts in push order, whether or not their guards
hold; every classification pass emits a sublist of this list. -/
def allContexts (tasks : List TaskWithCategory) (now tz : Int) : List Context :=
  [ctxDueToday tasks now tz]
  ++ ([ctxHighPriority tasks now tz]
  ++ ([ctxTimeBased tasks now tz]
  ++ ([ctxCategory tasks now tz]
  ++ ([ctxRecentlyCreated tasks now tz]
  ++ [ctxOther tasks now tz]))))

/-! ## Productivity aggregator (`fetchProductivityData`) -/

/-- A `task_activities` row: the fields the analytics code reads. -/
structure Activity where
  task_id : String
  activity_type : String
  created_at : Int
deriving DecidableEq, Repr

inductive Timeframe
  | week
  | month
deriving DecidableEq, Repr

/-- `startDate.setDate(now.getDate() - 7 | 30)`. -/
def windowDays : Timeframe → Int
  | .week => 7
  | .month => 30

/-- `productivityByDay.has(key)`. -/
def hasDay (m : List (Int × Nat × Nat)) (d : Int) : Bool :=
  m.any fun e => e.1 == d

/-- `productivityByDay.set(key, value)`: rewrite in place when the key
exists (JavaScript Maps keep the key's position), append otherwise. -/
def setDay (m : List (Int × Nat × Nat)) (d : Int) (created completed : Nat) :
    List (Int × Nat × Nat) :=
  if hasDay m d then m.map fun e => if e.1 == d then (d, created, completed) else e
  else m ++ [(d, created, completed)]

/-- `productivityByDay.get(key)` with the `(0, 0)` default of the init loop. -/
def getDay (m : List (Int × Nat × Nat)) (d : Int) : Nat × Nat :=
  match m.find? fun e => e.1 == d with
  | some e => (e.2.1, e.2.2)
  | none => (0, 0)

/-- The `while (currentDate <= now)` init loop, made structurally recursive
on a fuel argument; `dayKeys` supplies a fuel that exceeds the number of
iterations, so the loop always stops on its own guard, never on the fuel. -/
def dayKeysAux : Nat → Int → Int → List Int
  | 0, _, _ => []
  | fuel + 1, current, now =>
      if current ≤ now then dayKeyOf current :: dayKeysAux fuel (current + msPerDay) now
      else []

/-- The UTC date keys the init loop inserts, walking from `start` to `now`
inclusive in steps of one day. -/
def dayKeys (start now : Int) : List Int :=
  dayKeysAux ((now - start).toNat + 1) start now

def initDayMap (start now : Int) : List (Int × Nat × Nat) :=
  (dayKeys start now).foldl (fun m d => setDay m d 0 0) []

/-- The `createdTasks.forEach` counting pass: bump the `created` component of
the entry keyed by the event's UTC date, when that key was initialised. -/
def countCreated (events : List Activity) (m : List (Int × Nat × Nat)) :
    List (Int × Nat × Nat) :=
  events.foldl
    (fun m a =>
      if hasDay m (dayKeyOf a.created_at) then
        setDay m (dayKeyOf a.created_at)
          ((getDay m (dayKeyOf a.created_at)).1 + 1) (getDay m (dayKeyOf a.created_at)).2
      else m)
    m

/-- The `completedTasks.forEach` counting pass, bumping `completed`. -/
def countCompleted (events : List Activity) (m : List (Int × Nat × Nat)) :
    List (Int × Nat × Nat) :=
  events.foldl
    (fun m a =>
      if hasDay m (dayKeyOf a.created_at) then
        setDay m (dayKeyOf a.created_at)
          (getDay m (dayKeyOf a.created_at)).1 ((getDay m (dayKeyOf a.created_at)).2 + 1)
      else m)
    m

/-- One element of the chart series.  The source record carries only the
rendered `day` label plus the two counts; `dayKey` additionally records the
UTC date key the label was formatted from, so statements can speak about the
calendar date an entry represents. -/
structure ProductivityData where
  dayKey : Int
  day : String
  created : Nat
  completed : Nat
deriving DecidableEq, Repr

/-- Gregorian calendar date (year, month, day) of a day number counted from
1970-01-01, by the standard civil-from-days conversion. -/
def civilFromDays (z0 : Int) : Int × Int × Int :=
  let z := z0 + 719468
  let era := Int.fdiv z 146097
  let doe := z - era * 146097
  let yoe := Int.fdiv (doe - Int.fdiv doe 1460 + Int.fdiv doe 36524 - Int.fdiv doe 146096) 365
  let y := yoe + era * 400
  let doy := doe - (365 * yoe + Int.fdiv yoe 4 - Int.fdiv yoe 100)
  let mp := Int.fdiv (5 * doy + 2) 153
  let d := doy - Int.fdiv (153 * mp + 2) 5 + 1
  let m := if mp < 10 then mp + 3 else mp - 9
  (if m ≤ 2 then y + 1 else y, m, d)

/-- The en-US short month names `toLocaleDateString` renders. -/
def monthShort (m : Int) : String :=
  if m = 1 then "Jan" else if m = 2 then "Feb" else if m = 3 then "Mar"
  else if m = 4 then "Apr" else if m = 5 then "May" else if m = 6 then "Jun"
  else if m = 7 then "Jul" else if m = 8 then "Aug" else if m = 9 then "Sep"
  else if m = 10 then "Oct" else if m = 11 then "Nov" else "Dec"

/-- `day: "2-digit"` rendering. -/
def twoDigit (d : Int) : String :=
  if d < 10 then "0" ++ toString d else toString d

/-- `formatDate(dateStr)`: the key string parses as UTC midnight of day
`dayNumber`, and `toLocaleDateString("en-US", {month: "short", day:
"2-digit"})` renders that instant in the client zone. -/
def formatDate (tz dayNumber : Int) : String :=
  let shown := civilFromDays (localDayOf (dayNumber * msPerDay) tz)
  monthShort shown.2.1 ++ " " ++ twoDigit shown.2.2

/-- Character-wise string comparison by code point.  On the labels this chart
renders (an initial capital, two lowercase letters, a space, two digits) the
en-US collation of `localeCompare` orders exactly like this. -/
def labelLe : List Char → List Char → Bool
  | [], _ => true
  | _ :: _, [] => false
  | a :: as, b :: bs =>
      if a.toNat < b.toNat then true
      else if b.toNat < a.toNat then false
      else labelLe as bs

/-- The comparator `(a, b) => a.day.localeCompare(b.day)`: ascending in the
rendered label. -/
def chartOrder (a b : ProductivityData) : Prop := labelLe a.day.data b.day.data = true

instance : DecidableRel chartOrder := fun a b =>
  inferInstanceAs (Decidable (labelLe a.day.data b.day.data = true))

/-- The computation core of `fetchProductivityData`: window the day grid,
count both event lists, render labels, sort by label.  `Array.sort` is
stable and the labels in any reachable window are pairwise distinct, so a
stable insertion sort by the same comparator yields the same array. -/
def fetchProductivityData (timeframe : Timeframe) (now tz : Int)
    (createdTasks completedTasks : List Activity) : List ProductivityData :=
  let startDate := now - windowDays timeframe * msPerDay
  let m := countCompleted completedTasks (countCreated createdTasks (initDayMap startDate now))
  List.insertionSort chartOrder
    (m.map fun e => ProductivityData.mk e.1 (formatDate tz e.1) e.2.1 e.2.2)

/-! ## Completion statistics (`fetchCompletionStats`) -/

def completedCount (tasks : List TaskWithCategory) : Nat :=
  (tasks.filter fun task => task.status == Status.completed).length

/-- `completionRate`: `(completedTasks / totalTasks) * 100` guarded by
`totalTasks > 0`. -/
def completionRate (tasks : List TaskWithCategory) : ℚ :=
  if 0 < tasks.length then ((completedCount tasks : ℚ) / (tasks.length : ℚ)) * 100 else 0

/-- The keys of the `taskTimestamps` record in insertion order: task ids in
order of first occurrence in the activity list. -/
def activityTaskIds (activities : List Activity) : List String :=
  activities.foldl (fun ks a => if ks.contains a.task_id then ks else ks ++ [a.task_id]) []

/-- One step of the `activities.forEach` that fills `taskTimestamps`: a later
`create`/`complete` event overwrites the slot, any other type is ignored. -/
def tsStep (taskId : String) (acc : Option Int × Option Int) (a : Activity) :
    Option Int × Option Int :=
  if a.task_id == taskId then
    if a.activity_type == "create" then (some a.created_at, acc.2)
    else if a.activity_type == "complete" then (acc.1, some a.created_at)
    else acc
  else acc

/-- The final `taskTimestamps[taskId]` record after the forEach. -/
def taskTimestamps (activities : List Activity) (taskId : String) : Option Int × Option Int :=
  activities.foldl (tsStep taskId) (none, none)

/-- The `hoursDiff` contributions, one per task whose record holds both a
`created` and a `completed` instant, in key insertion order. -/
def completionPairs (activities : List Activity) : List ℚ :=
  (activityTaskIds activities).filterMap fun taskId =>
    match taskTimestamps activities taskId with
    | (some created, some completed) =>
        some (((completed - created : Int) : ℚ) / (1000 * 60 * 60))
    | _ => none

/-- `averageCompletionTime`: total of the hour differences over the count of
tasks having both events, `0` when that count is `0`. -/
def averageCompletionTime (activities : List Activity) : ℚ :=
  if 0 < (completionPairs activities).length then
    (completionPairs activities).sum / ((completionPairs activities).length : ℚ)
  else 0

/-! Specification-side mean (refinement reference): written from the spec's
words, to be compared with `averageCompletionTime` from the source. -/

def specLastCreate (activities : List Activity) (taskId : String) : Option Int :=
  ((activities.filter fun a => a.task_id == taskId && a.activity_type == "create").map
    Activity.created_at).getLast?

def specLastComplete (activities : List Activity) (taskId : String) : Option Int :=
  ((activities.filter fun a => a.task_id == taskId && a.activity_type == "complete").map
    Activity.created_at).getLast?

/-- Mean completion time as the spec states it: the arithmetic mean, in
hours, of (complete instant minus create instant) over exactly the tasks
having both a create and a complete event, `0` when no task has both. -/
def specMeanCompletionTime (activities : List Activity) : ℚ :=
  let ids := (activityTaskIds activities).filter fun taskId =>
    (specLastCreate activities taskId).isSome && (specLastComplete activities taskId).isSome
  if ids.length = 0 then 0
  else
    (ids.map fun taskId =>
      ((((specLastComplete activities taskId).getD 0
          - (specLastCreate activities taskId).getD 0 : Int) : ℚ) / (1000 * 60 * 60))).sum
      / (ids.length : ℚ)

/-! ## Generic helper lemmas -/

theorem mem_ite_singleton {α : Type} {c : Prop} [Decidable c] {x a : α}
    (h : a ∈ (if c then [x] else ([] : List α))) : a = x := by
  split at h
  · simpa using h
  · simp at h

theorem ite_singleton_sublist {α : Type} {c : Prop} [Decidable c] {x : α} :
    List.Sublist (if c then [x] else ([] : List α)) [x] := by
  split
  · exact List.Sublist.refl _
  · exact List.nil_sublist _

theorem data_append (a b : String) : (a ++ b).data = a.data ++ b.data := by
  cases a; cases b; rfl

theorem append_ne_of_head (a b : String) (c₁ c₂ : Char) (h₁ : a.data.head? = some c₁)
    (h₂ : b.data.head? = some c₂) (hne : c₁ ≠ c₂) (s : String) : a ++ s ≠ b := by
  intro h
  have hd := congrArg String.data h
  rw [data_append] at hd
  cases ha : a.data with
  | nil => rw [ha] at h₁; simp at h₁
  | cons x xs =>
      rw [ha] at h₁ hd
      rw [← hd] at h₂
      simp only [List.cons_append, List.head?_cons, Option.some.injEq] at h₁ h₂
      exact hne (h₁ ▸ h₂ ▸ rfl)

/-! ## Membership characterisations for the classifier's lists -/

theorem anyId_of_mem {t : TaskWithCategory} {l : List TaskWithCategory} (h : t ∈ l) :
    anyId t.id l = true := by
  unfold anyId
  rw [List.any_eq_true]
  exact ⟨t, h, by simp⟩

theorem mem_due_parts {tasks : List TaskWithCategory} {now tz : Int} {t : TaskWithCategory}
    (h : t ∈ dueTodayTasks tasks now tz) :
    t ∈ tasks ∧ ∃ d, t.due_date = some d ∧ localMidnight d tz = localMidnight now tz := by
  unfold dueTodayTasks at h
  rw [List.mem_filter] at h
  refine ⟨h.1, ?_⟩
  have h2 := h.2
  cases hd : t.due_date with
  | none => rw [hd] at h2; simp at h2
  | some d => rw [hd] at h2; exact ⟨d, rfl, by simpa using h2⟩

theorem mem_due_intro {tasks : List TaskWithCategory} {now tz : Int} {t : TaskWithCategory}
    (ht : t ∈ tasks) {d : Int} (hd : t.due_date = some d)
    (he : localMidnight d tz = localMidnight now tz) : t ∈ dueTodayTasks tasks now tz := by
  unfold dueTodayTasks
  rw [List.mem_filter]
  exact ⟨ht, by rw [hd]; simpa using he⟩

theorem mem_high_parts {tasks : List TaskWithCategory} {now tz : Int} {t : TaskWithCategory}
    (h : t ∈ highPriorityTasks tasks now tz) :
    t ∈ tasks ∧ t.priority = Priority.high
      ∧ anyId t.id (dueTodayTasks tasks now tz) = false := by
  unfold highPriorityTasks at h
  simp only [List.mem_filter, Bool.and_eq_true, beq_iff_eq, Bool.not_eq_true'] at h
  exact ⟨h.1, h.2.1, h.2.2⟩

theorem mem_inProgress_parts {tasks : List TaskWithCategory} {now tz : Int} {t : TaskWithCategory}
    (h : t ∈ inProgressTasks tasks now tz) :
    t ∈ tasks ∧ t.status = Status.in_progress
      ∧ anyId t.id (dueTodayTasks tasks now tz) = false
      ∧ anyId t.id (highPriorityTasks tasks now tz) = false := by
  unfold inProgressTasks at h
  simp only [List.mem_filter, Bool.and_eq_true, beq_iff_eq, Bool.not_eq_true'] at h
  exact ⟨h.1, h.2.1.1, h.2.1.2, h.2.2⟩

theorem mem_group_parts {tasks : List TaskWithCategory} {now tz : Int} {cid : String}
    {t : TaskWithCategory} (h : t ∈ categoryGroup tasks now tz cid) :
    t ∈ tasks ∧ (∃ c, t.category = some c ∧ c.id = cid)
      ∧ anyId t.id (dueTodayTasks tasks now tz) = false
      ∧ anyId t.id (highPriorityTasks tasks now tz) = false
      ∧ anyId t.id (inProgressTasks tasks now tz) = false := by
  unfold categoryGroup at h
  simp only [List.mem_filter, Bool.and_eq_true, Bool.not_eq_true'] at h
  obtain ⟨h1, ⟨⟨hm, ha⟩, hb⟩, hc⟩ := h
  refine ⟨h1, ?_, ha, hb, hc⟩
  cases hcat : t.category with
  | none => rw [hcat] at hm; simp at hm
  | some c => rw [hcat] at hm; exact ⟨c, rfl, by simpa using hm⟩

theorem mem_group_intro {tasks : List TaskWithCategory} {now tz : Int} {t : TaskWithCategory}
    {c : Category} (ht : t ∈ tasks) (hc : t.category = some c)
    (h1 : anyId t.id (dueTodayTasks tasks now tz) = false)
    (h2 : anyId t.id (highPriorityTasks tasks now tz) = false)
    (h3 : anyId t.id (inProgressTasks tasks now tz) = false) :
    t ∈ categoryGroup tasks now tz c.id := by
  unfold categoryGroup
  rw [List.mem_filter]
  refine ⟨ht, ?_⟩
  rw [hc]
  simp [h1, h2, h3]

theorem mem_recently_parts {tasks : List TaskWithCategory} {now tz : Int} {t : TaskWithCategory}
    (h : t ∈ recentlyCreatedTasks tasks now tz) :
    t ∈ tasks
      ∧ anyId t.id (dueTodayTasks tasks now tz) = false
      ∧ anyId t.id (highPriorityTasks tasks now tz) = false
      ∧ anyId t.id (inProgressTasks tasks now tz) = false
      ∧ (match t.category with
         | some c => (categoryGroup tasks now tz c.id).any fun u => u.id == t.id
         | none => false) = false
      ∧ now - 7 * msPerDay < t.created_at := by
  unfold recentlyCreatedTasks at h
  rw [List.mem_filter] at h
  obtain ⟨h1, h2⟩ := h
  refine ⟨h1, ?_⟩
  split at h2
  · simp at h2
  · rename_i hcond
    simp only [Bool.or_eq_true, not_or, Bool.not_eq_true] at hcond
    exact ⟨hcond.1.1.1, hcond.1.1.2, hcond.1.2, hcond.2, of_decide_eq_true h2⟩

theorem mem_remaining_parts {tasks : List TaskWithCategory} {now tz : Int} {t : TaskWithCategory}
    (h : t ∈ remainingTasks tasks now tz) :
    t ∈ tasks
      ∧ anyId t.id (dueTodayTasks tasks now tz) = false
      ∧ anyId t.id (highPriorityTasks tasks now tz) = false
      ∧ anyId t.id (inProgressTasks tasks now tz) = false
      ∧ anyId t.id (recentlyCreatedTasks tasks now tz) = false
      ∧ (match t.category with
         | some c => (categoryGroup tasks now tz c.id).any fun u => u.id == t.id
         | none => false) = false := by
  unfold remainingTasks at h
  simp only [List.mem_filter, Bool.and_eq_true, Bool.not_eq_true'] at h
  exact ⟨h.1, h.2.1.1.1.1, h.2.1.1.1.2, h.2.1.1.2, h.2.1.2, h.2.2⟩

/-! ## The emitted contexts are a sublist of the six candidates -/

theorem generate_sublist (tasks : List TaskWithCategory) (now tz : Int) :
    List.Sublist (generateSmartContexts tasks now tz) (allContexts tasks now tz) := by
  unfold generateSmartContexts allContexts categoryContexts
  refine List.Sublist.append ite_singleton_sublist
    (List.Sublist.append ite_singleton_sublist
      (List.Sublist.append ite_singleton_sublist
        (List.Sublist.append ite_singleton_sublist
          (List.Sublist.append ite_singleton_sublist ite_singleton_sublist))))

theorem mem_allContexts {tasks : List TaskWithCategory} {now tz : Int} {ctx : Context}
    (h : ctx ∈ allContexts tasks now tz) :
    ctx = ctxDueToday tasks now tz ∨ ctx = ctxHighPriority tasks now tz
    ∨ ctx = ctxTimeBased tasks now tz ∨ ctx = ctxCategory tasks now tz
    ∨ ctx = ctxRecentlyCreated tasks now tz ∨ ctx = ctxOther tasks now tz := by
  simp only [allContexts, List.cons_append, List.nil_append, List.mem_cons,
    List.mem_singleton, List.not_mem_nil, or_false] at h
  exact h

/-- The task lists of the six candidate contexts are pairwise disjoint at the
task-object level: every later rule's filter excludes, by id, everything an
earlier rule claimed, and a task excludes itself through its own id. -/
theorem contexts_disjoint (tasks : List TaskWithCategory) (now tz : Int) :
    List.Pairwise (fun c₁ c₂ => ∀ t ∈ c₁.tasks, t ∉ c₂.tasks) (allContexts tasks now tz) := by
  have hgrp : ∀ {t : TaskWithCategory},
      t ∈ categoryGroup tasks now tz (mainCategoryId tasks now tz) →
      t ∉ recentlyCreatedTasks tasks now tz ∧ t ∉ remainingTasks tasks now tz := by
    intro t ht
    obtain ⟨-, ⟨c, hc, hcid⟩, -⟩ := mem_group_parts ht
    have hany : (categoryGroup tasks now tz c.id).any (fun u => u.id == t.id) = true := by
      rw [List.any_eq_true]
      exact ⟨t, by rw [hcid]; exact ht, by simp⟩
    constructor
    · intro hmem
      have h5 := (mem_recently_parts hmem).2.2.2.2.1
      simp [hc, hany] at h5
    · intro hmem
      have h5 := (mem_remaining_parts hmem).2.2.2.2.2
      simp [hc, hany] at h5
  have hne : ∀ {t : TaskWithCategory} {l : List TaskWithCategory},
      t ∈ l → anyId t.id l = false → False := by
    intro t l hm hf
    rw [anyId_of_mem hm] at hf
    exact Bool.noConfusion hf
  show List.Pairwise _ [ctxDueToday tasks now tz, ctxHighPriority tasks now tz,
    ctxTimeBased tasks now tz, ctxCategory tasks now tz, ctxRecentlyCreated tasks now tz,
    ctxOther tasks now tz]
  refine List.Pairwise.cons ?_ (List.Pairwise.cons ?_ (List.Pairwise.cons ?_
    (List.Pairwise.cons ?_ (List.Pairwise.cons ?_ (List.Pairwise.cons ?_ List.Pairwise.nil)))))
  · intro b hb t ht hmem
    rcases List.mem_cons.mp hb with rfl | hb
    · exact hne ht (mem_high_parts hmem).2.2
    rcases List.mem_cons.mp hb with rfl | hb
    · exact hne ht (mem_inProgress_parts hmem).2.2.1
    rcases List.mem_cons.mp hb with rfl | hb
    · exact hne ht (mem_group_parts hmem).2.2.1
    rcases List.mem_cons.mp hb with rfl | hb
    · exact hne ht (mem_recently_parts hmem).2.1
    rcases List.mem_cons.mp hb with rfl | hb
    · exact hne ht (mem_remaining_parts hmem).2.1
    simp at hb
  · intro b hb t ht hmem
    rcases List.mem_cons.mp hb with rfl | hb
    · exact hne ht (mem_inProgress_parts hmem).2.2.2
    rcases List.mem_cons.mp hb with rfl | hb
    · exact hne ht (mem_group_parts hmem).2.2.2.1
    rcases List.mem_cons.mp hb with rfl | hb
    · exact hne ht (mem_recently_parts hmem).2.2.1
    rcases List.mem_cons.mp hb with rfl | hb
    · exact hne ht (mem_remaining_parts hmem).2.2.1
    simp at hb
  · intro b hb t ht hmem
    rcases List.mem_cons.mp hb with rfl | hb
    · exact hne ht (mem_group_parts hmem).2.2.2.2
    rcases List.mem_cons.mp hb with rfl | hb
    · exact hne ht (mem_recently_parts hmem).2.2.2.1
    rcases List.mem_cons.mp hb with rfl | hb
    · exact hne ht (mem_remaining_parts hmem).2.2.2.1
    simp at hb
  · intro b hb t ht hmem
    rcases List.mem_cons.mp hb with rfl | hb
    · exact (hgrp ht).1 hmem
    rcases List.mem_cons.mp hb with rfl | hb
    · exact (hgrp ht).2 hmem
    simp at hb
  · intro b hb t ht hmem
    rcases List.mem_cons.mp hb with rfl | hb
    · exact hne ht (mem_remaining_parts hmem).2.2.2.2.1
    simp at hb
  · intro b hb
    simp at hb

/-- C5: for every input task list and reference instant, each input task
appears in the task list of at most one emitted `Context` (the emitted
contexts have pairwise disjoint task lists); in particular a task whose due
date falls on the reference day and whose priority is `high` is in the Due
Today list and never in the High Priority list. -/
theorem claim_C5_at_most_one_context (tasks : List TaskWithCategory) (now tz : Int) :
    List.Pairwise (fun c₁ c₂ => ∀ t ∈ c₁.tasks, t ∉ c₂.tasks)
      (generateSmartContexts tasks now tz)
    ∧ ∀ t ∈ tasks, ∀ d : Int, t.due_date = some d →
        localMidnight d tz = localMidnight now tz → t.priority = Priority.high →
        t ∈ dueTodayTasks tasks now tz ∧ t ∉ highPriorityTasks tasks now tz := by
  constructor
  · exact List.Pairwise.sublist (generate_sublist tasks now tz)
      (contexts_disjoint tasks now tz)
  · intro t ht d hd he _
    have hdue : t ∈ dueTodayTasks tasks now tz := mem_due_intro ht hd he
    refine ⟨hdue, ?_⟩
    intro hmem
    have h2 := (mem_high_parts hmem).2.2
    rw [anyId_of_mem hdue] at h2
    exact Bool.noConfusion h2

/-- C2: when the remaining tasks span two or more categories, every remaining
task whose category is not the selected dominant one is a member of the
per-category map (so the Recently Added and Other filters exclude it) and
appears in no emitted context at all. -/
theorem claim_C2_nondominant_tasks_dropped (tasks : List TaskWithCategory) (now tz : Int)
    (t : TaskWithCategory) (c : Category)
    (ht : t ∈ tasks) (hc : t.category = some c)
    (h1 : anyId t.id (dueTodayTasks tasks now tz) = false)
    (h2 : anyId t.id (highPriorityTasks tasks now tz) = false)
    (h3 : anyId t.id (inProgressTasks tasks now tz) = false)
    (hcats : 2 ≤ (categoryIds tasks now tz).length)
    (hdom : c.id ≠ mainCategoryId tasks now tz) :
    t ∈ categoryGroup tasks now tz c.id
    ∧ ∀ ctx ∈ generateSmartContexts tasks now tz, t ∉ ctx.tasks := by
  have hg : t ∈ categoryGroup tasks now tz c.id := mem_group_intro ht hc h1 h2 h3
  refine ⟨hg, ?_⟩
  intro ctx hctx hmem
  have hany : (categoryGroup tasks now tz c.id).any (fun u => u.id == t.id) = true := by
    rw [List.any_eq_true]
    exact ⟨t, hg, by simp⟩
  have hctx6 := mem_allContexts ((generate_sublist tasks now tz).subset hctx)
  rcases hctx6 with rfl | rfl | rfl | rfl | rfl | rfl
  · have hm : t ∈ dueTodayTasks tasks now tz := hmem
    rw [anyId_of_mem hm] at h1
    exact Bool.noConfusion h1
  · have hm : t ∈ highPriorityTasks tasks now tz := hmem
    rw [anyId_of_mem hm] at h2
    exact Bool.noConfusion h2
  · have hm : t ∈ inProgressTasks tasks now tz := hmem
    rw [anyId_of_mem hm] at h3
    exact Bool.noConfusion h3
  · obtain ⟨-, ⟨c', hc', hcid⟩, -⟩ := mem_group_parts hmem
    rw [hc] at hc'
    cases hc'
    exact hdom hcid
  · have h5 := (mem_recently_parts hmem).2.2.2.2.1
    simp [hc, hany] at h5
  · have h5 := (mem_remaining_parts hmem).2.2.2.2.2
    simp [hc, hany] at h5

/-- The dominant-category context id never collides with the five fixed ids:
its first character is `c` and no fixed id other than its own starts with
`category-`. -/
theorem categoryCtx_id_ne (s : String) :
    ("category-" ++ s ≠ "due-today") ∧ ("category-" ++ s ≠ "high-priority")
    ∧ ("category-" ++ s ≠ "time-based") ∧ ("category-" ++ s ≠ "recently-created")
    ∧ ("category-" ++ s ≠ "other") :=
  ⟨append_ne_of_head "category-" "due-today" 'c' 'd' rfl rfl (by decide) s,
   append_ne_of_head "category-" "high-priority" 'c' 'h' rfl rfl (by decide) s,
   append_ne_of_head "category-" "time-based" 'c' 't' rfl rfl (by decide) s,
   append_ne_of_head "category-" "recently-created" 'c' 'r' rfl rfl (by decide) s,
   append_ne_of_head "category-" "other" 'c' 'o' rfl rfl (by decide) s⟩

/-- C10: the time-based bucket holds exactly the remaining `in_progress`
tasks; its membership criterion does not involve the hour (only the local
calendar day, through rules 1-2), while the display name is determined by the
reference hour through the ranges [0,12), [12,17), [17,24). -/
theorem claim_C10_time_bucket (tasks : List TaskWithCategory) (now tz : Int) (ctx : Context)
    (hctx : ctx ∈ generateSmartContexts tasks now tz) (hid : ctx.id = "time-based") :
    ctx.tasks = inProgressTasks tasks now tz
    ∧ (∀ t ∈ ctx.tasks, t.status = Status.in_progress)
    ∧ (∀ now₂ : Int, localMidnight now tz = localMidnight now₂ tz →
        inProgressTasks tasks now tz = inProgressTasks tasks now₂ tz)
    ∧ ctx.name = (if localHour now tz < 12 then "Morning Focus"
        else if localHour now tz < 17 then "Afternoon Tasks" else "Evening Wrap-up")
    ∧ 0 ≤ localHour now tz ∧ localHour now tz < 24 := by
  have hctx6 := mem_allContexts ((generate_sublist tasks now tz).subset hctx)
  rcases hctx6 with rfl | rfl | rfl | rfl | rfl | rfl
  · simp [ctxDueToday] at hid
  · simp [ctxHighPriority] at hid
  · refine ⟨rfl, ?_, ?_, rfl, ?_⟩
    · intro t htm
      exact (mem_inProgress_parts htm).2.1
    · intro now₂ hmid
      have hdue : dueTodayTasks tasks now tz = dueTodayTasks tasks now₂ tz := by
        unfold dueTodayTasks
        rw [hmid]
      have hhigh : highPriorityTasks tasks now tz = highPriorityTasks tasks now₂ tz := by
        unfold highPriorityTasks
        rw [hdue]
      unfold inProgressTasks
      rw [hdue, hhigh]
    · have hb0 : (0 : Int) ≤ Int.fmod (now + tz) msPerDay :=
        Int.fmod_nonneg' (now + tz) (by norm_num [msPerDay])
      have hb1 : Int.fmod (now + tz) msPerDay < msPerDay :=
        Int.fmod_lt_of_pos (now + tz) (by norm_num [msPerDay])
      unfold localHour
      rw [Int.fdiv_eq_ediv _ (by norm_num [msPerHour])]
      unfold msPerDay at hb0 hb1 ⊢
      unfold msPerHour
      omega
  · exact absurd hid (categoryCtx_id_ne (mainCategoryId tasks now tz)).2.2.1
  · simp [ctxRecentlyCreated] at hid
  · simp [ctxOther] at hid

/-! ## Concrete inputs used by the counterexamples and witnesses -/

def exCatA : Category := ⟨"a", "Work"⟩

def exCatB : Category := ⟨"b", "Home"⟩

/-- Category-a task: pending, low priority, no due date, created 10 days
before the epoch reference instant. -/
def exTaskA : TaskWithCategory :=
  ⟨"1", "task one", Priority.low, Status.pending, none, -864000000, some exCatA⟩

/-- Category-b task, otherwise identical to `exTaskA`. -/
def exTaskB : TaskWithCategory :=
  ⟨"2", "task two", Priority.low, Status.pending, none, -864000000, some exCatB⟩

def exTasks : List TaskWithCategory := [exTaskA, exTaskB]

/-- An `in_progress`, low-priority task with no due date and no category. -/
def exTaskC : TaskWithCategory :=
  ⟨"3", "task three", Priority.low, Status.in_progress, none, 0, none⟩

theorem claim_C2_witness :
    exTaskB ∈ exTasks ∧ exTaskB.category = some exCatB
    ∧ anyId exTaskB.id (dueTodayTasks exTasks 0 0) = false
    ∧ anyId exTaskB.id (highPriorityTasks exTasks 0 0) = false
    ∧ anyId exTaskB.id (inProgressTasks exTasks 0 0) = false
    ∧ 2 ≤ (categoryIds exTasks 0 0).length
    ∧ exCatB.id ≠ mainCategoryId exTasks 0 0
    ∧ (exTaskB ∈ categoryGroup exTasks 0 0 exCatB.id
       ∧ ∀ ctx ∈ generateSmartContexts exTasks 0 0, exTaskB ∉ ctx.tasks) :=
  ⟨by decide, by decide, by decide, by decide, by decide, by decide, by decide,
   claim_C2_nondominant_tasks_dropped exTasks 0 0 exTaskB exCatB (by decide) (by decide)
     (by decide) (by decide) (by decide) (by decide) (by decide)⟩

theorem claim_C10_witness :
    (⟨"time-based", "Morning Focus", [exTaskC], Priority.medium⟩ : Context)
        ∈ generateSmartContexts [exTaskC] 0 0
    ∧ ([exTaskC] = inProgressTasks [exTaskC] 0 0
       ∧ (∀ t ∈ [exTaskC], t.status = Status.in_progress)
       ∧ (∀ now₂ : Int, localMidnight 0 0 = localMidnight now₂ 0 →
           inProgressTasks [exTaskC] 0 0 = inProgressTasks [exTaskC] now₂ 0)
       ∧ "Morning Focus" = (if localHour 0 0 < 12 then "Morning Focus"
           else if localHour 0 0 < 17 then "Afternoon Tasks" else "Evening Wrap-up")
       ∧ 0 ≤ localHour 0 0 ∧ localHour 0 0 < 24) :=
  ⟨by decide,
   claim_C10_time_bucket [exTaskC] 0 0
     ⟨"time-based", "Morning Focus", [exTaskC], Priority.medium⟩ (by decide) rfl⟩

/-- C1 (evaluation at the failing input): with two remaining tasks in two
distinct categories, the classifier emits only the dominant category's
bucket; `exTaskB` (category `b`) is excluded from Recently Added and Other
Tasks by the per-category-map membership check and so appears in no context:
the union of the emitted task lists is `[exTaskA]`, not the input list. -/
theorem claim_C1_partition_eval :
    generateSmartContexts exTasks 0 0
      = [⟨"category-a", "Focus: Work", [exTaskA], Priority.medium⟩]
    ∧ exTaskB ∈ exTasks
    ∧ ((generateSmartContexts exTasks 0 0).map Context.tasks).flatten = [exTaskA]
    ∧ ¬ exTaskB ∈ ((generateSmartContexts exTasks 0 0).map Context.tasks).flatten := by
  decide

/-- C7: the completion rate is `completed/total * 100`, with rational
division-by-zero conventions making the unguarded formula agree with the
guarded source computation, and it is exactly `0` on the empty task list. -/
theorem claim_C7_completion_rate :
    (∀ tasks : List TaskWithCategory,
      completionRate tasks = ((completedCount tasks : ℚ) * 100) / (tasks.length : ℚ))
    ∧ completionRate [] = 0 := by
  constructor
  · intro tasks
    unfold completionRate
    split
    · rename_i h
      have hne : ((tasks.length : ℚ)) ≠ 0 := by
        exact_mod_cast Nat.pos_iff_ne_zero.mp h
      field_simp
    · rename_i h
      have h0 : tasks.length = 0 := by omega
      rw [h0]
      norm_num
  · rfl

/-- `a < b` holds between every adjacent pair: the series is strictly
ascending in the value the list holds. -/
def sortedAscending : List Int → Bool
  | [] => true
  | [_] => true
  | a :: b :: rest => (decide (a < b)) && sortedAscending (b :: rest)

/-- The reference instant 2026-04-03T00:00:00Z (day number 20546), whose
7-day window crosses the March/April month boundary. -/
def exC3Now : Int := 20546 * 86400000

/-- C3 (evaluation at the failing input): over the week window ending
2026-04-03 in a UTC client, the aggregator's output lists the April days
before the March days — the sort compares the rendered labels
("Apr 01" < "Mar 27" as strings) — so the series is not ascending by
calendar date. -/
theorem claim_C3_sort_eval :
    ((fetchProductivityData Timeframe.week exC3Now 0 [] []).map ProductivityData.day
      = ["Apr 01", "Apr 02", "Apr 03", "Mar 27", "Mar 28", "Mar 29", "Mar 30", "Mar 31"])
    ∧ ((fetchProductivityData Timeframe.week exC3Now 0 [] []).map ProductivityData.dayKey
      = [20544, 20545, 20546, 20539, 20540, 20541, 20542, 20543])
    ∧ sortedAscending
        ((fetchProductivityData Timeframe.week exC3Now 0 [] []).map ProductivityData.dayKey)
      = false := by
  decide

/-! ## Day-grid lemmas for the aggregator -/

theorem dayKeysAux_nil (fuel : Nat) (current now : Int) (h : ¬ current ≤ now) :
    dayKeysAux fuel current now = [] := by
  cases fuel <;> simp [dayKeysAux, h]

theorem dayKeysAux_irrel : ∀ (f₁ f₂ : Nat) (current now : Int),
    (now - current).toNat < f₁ → (now - current).toNat < f₂ →
    dayKeysAux f₁ current now = dayKeysAux f₂ current now := by
  intro f₁
  induction f₁ with
  | zero =>
      intro f₂ current now h₁ _
      omega
  | succ g ih =>
      intro f₂ current now h₁ h₂
      match f₂ with
      | 0 => omega
      | k + 1 =>
          simp only [dayKeysAux]
          split
          · rename_i hle
            by_cases hle2 : current + msPerDay ≤ now
            · have hg : (now - (current + msPerDay)).toNat < g := by
                unfold msPerDay at *
                omega
              have hk : (now - (current + msPerDay)).toNat < k := by
                unfold msPerDay at *
                omega
              rw [ih k (current + msPerDay) now hg hk]
            · rw [dayKeysAux_nil g _ _ hle2, dayKeysAux_nil k _ _ hle2]
          · rfl

/-- The one-step unfolding of the init loop: the fuel `dayKeys` supplies is
never what stops it. -/
theorem dayKeys_unfold (start now : Int) :
    dayKeys start now =
      if start ≤ now then dayKeyOf start :: dayKeys (start + msPerDay) now else [] := by
  unfold dayKeys
  split
  · rename_i hle
    have h1 : dayKeysAux ((now - start).toNat + 1) start now
        = dayKeyOf start :: dayKeysAux ((now - start).toNat) (start + msPerDay) now := by
      simp only [dayKeysAux]
      rw [if_pos hle]
    rw [h1]
    by_cases hle2 : start + msPerDay ≤ now
    · rw [dayKeysAux_irrel ((now - start).toNat) ((now - (start + msPerDay)).toNat + 1)
        (start + msPerDay) now (by unfold msPerDay at *; omega) (by omega)]
    · rw [dayKeysAux_nil _ _ _ hle2, dayKeysAux_nil _ _ _ hle2]
  · rename_i hle
    exact dayKeysAux_nil _ _ _ hle

theorem dayKeys_length : ∀ (k : Nat) (now start : Int), start = now - (k : Int) * msPerDay →
    (dayKeys start now).length = k + 1 := by
  intro k
  induction k with
  | zero =>
      intro now start h
      have hs : start = now := by
        unfold msPerDay at h
        omega
      subst hs
      rw [dayKeys_unfold, if_pos le_rfl, dayKeys_unfold, if_neg (by unfold msPerDay; omega)]
      rfl
  | succ n ih =>
      intro now start h
      have hle : start ≤ now := by
        unfold msPerDay at h
        push_cast at h
        omega
      rw [dayKeys_unfold, if_pos hle]
      have hstep : start + msPerDay = now - (n : Int) * msPerDay := by
        unfold msPerDay at h ⊢
        push_cast at h ⊢
        omega
      rw [List.length_cons, ih now (start + msPerDay) hstep]

theorem dayKeyOf_add_day (t : Int) : dayKeyOf (t + msPerDay) = dayKeyOf t + 1 := by
  unfold dayKeyOf msPerDay
  rw [Int.fdiv_eq_ediv _ (by norm_num), Int.fdiv_eq_ediv _ (by norm_num)]
  omega

theorem dayKeys_chain : ∀ (k : Nat) (now start : Int), start = now - (k : Int) * msPerDay →
    List.Chain' (fun a b => a < b) (dayKeys start now) := by
  intro k
  induction k with
  | zero =>
      intro now start h
      have hs : start = now := by
        unfold msPerDay at h
        omega
      subst hs
      rw [dayKeys_unfold, if_pos le_rfl, dayKeys_unfold, if_neg (by unfold msPerDay; omega)]
      simp
  | succ n ih =>
      intro now start h
      have hle : start ≤ now := by
        unfold msPerDay at h
        push_cast at h
        omega
      have hstep : start + msPerDay = now - (n : Int) * msPerDay := by
        unfold msPerDay at h ⊢
        push_cast at h ⊢
        omega
      rw [dayKeys_unfold, if_pos hle, List.chain'_cons']
      refine ⟨?_, ih now (start + msPerDay) hstep⟩
      intro b hb
      rw [dayKeys_unfold, if_pos (by unfold msPerDay at hstep ⊢; omega)] at hb
      simp only [List.head?_cons, Option.mem_def, Option.some.injEq] at hb
      rw [← hb, dayKeyOf_add_day]
      omega

theorem dayKeys_nodup (k : Nat) (now start : Int) (h : start = now - (k : Int) * msPerDay) :
    (dayKeys start now).Nodup := by
  have hp := List.chain'_iff_pairwise.mp (dayKeys_chain k now start h)
  exact hp.imp Int.ne_of_lt

/-! ## The day map stays in grid shape through the counting passes -/

theorem hasDay_map (grid : List Int) (g1 g2 : Int → Nat) (d : Int) :
    (hasDay (grid.map fun x => (x, g1 x, g2 x)) d = true) ↔ d ∈ grid := by
  unfold hasDay
  rw [List.any_eq_true]
  constructor
  · rintro ⟨e, he, hbeq⟩
    obtain ⟨x, hx, rfl⟩ := List.mem_map.mp he
    have hxd : x = d := by simpa using hbeq
    exact hxd ▸ hx
  · intro hd
    exact ⟨(d, g1 d, g2 d), List.mem_map.mpr ⟨d, hd, rfl⟩, by simp⟩

theorem getDay_map (d : Int) (g1 g2 : Int → Nat) : ∀ grid : List Int,
    getDay (grid.map fun x => (x, g1 x, g2 x)) d = if d ∈ grid then (g1 d, g2 d) else (0, 0) := by
  intro grid
  induction grid with
  | nil => rfl
  | cons x xs ih =>
      unfold getDay at ih ⊢
      rw [List.map_cons, List.find?_cons]
      by_cases hx : x = d
      · subst hx
        simp
      · rw [show (((x, g1 x, g2 x) : Int × Nat × Nat).1 == d) = false from
          beq_eq_false_iff_ne.mpr hx]
        rw [ih]
        simp [hx, Ne.symm hx]

theorem setDay_map (grid : List Int) (g1 g2 h1 h2 : Int → Nat) (k : Int) (v₁ v₂ : Nat)
    (hh1 : ∀ x, h1 x = if x = k then v₁ else g1 x)
    (hh2 : ∀ x, h2 x = if x = k then v₂ else g2 x)
    (hk : hasDay (grid.map fun x => (x, g1 x, g2 x)) k = true) :
    setDay (grid.map fun x => (x, g1 x, g2 x)) k v₁ v₂
      = grid.map fun x => (x, h1 x, h2 x) := by
  unfold setDay
  rw [if_pos hk, List.map_map]
  apply List.map_congr_left
  intro x hx
  simp only [Function.comp]
  by_cases hxk : x = k
  · subst hxk
    simp [hh1, hh2]
  · rw [show (((x, g1 x, g2 x) : Int × Nat × Nat).1 == k) = false from
      beq_eq_false_iff_ne.mpr hxk]
    simp [hh1, hh2, hxk]

theorem countCreated_cons (a : Activity) (es : List Activity) (m : List (Int × Nat × Nat)) :
    countCreated (a :: es) m
      = countCreated es
          (if hasDay m (dayKeyOf a.created_at) then
            setDay m (dayKeyOf a.created_at) ((getDay m (dayKeyOf a.created_at)).1 + 1)
              (getDay m (dayKeyOf a.created_at)).2
          else m) := rfl

theorem countCompleted_cons (a : Activity) (es : List Activity) (m : List (Int × Nat × Nat)) :
    countCompleted (a :: es) m
      = countCompleted es
          (if hasDay m (dayKeyOf a.created_at) then
            setDay m (dayKeyOf a.created_at) (getDay m (dayKeyOf a.created_at)).1
              ((getDay m (dayKeyOf a.created_at)).2 + 1)
          else m) := rfl

theorem countCreated_map : ∀ (es : List Activity) (grid : List Int) (g1 g2 : Int → Nat),
    countCreated es (grid.map fun x => (x, g1 x, g2 x))
      = grid.map fun x =>
          (x, g1 x + (es.filter fun a => dayKeyOf a.created_at == x).length, g2 x) := by
  intro es
  induction es with
  | nil =>
      intro grid g1 g2
      show (grid.map fun x => (x, g1 x, g2 x)) = _
      apply List.map_congr_left
      intro x hx
      simp
  | cons a es ih =>
      intro grid g1 g2
      rw [countCreated_cons]
      by_cases hk : dayKeyOf a.created_at ∈ grid
      · have hhas := (hasDay_map grid g1 g2 (dayKeyOf a.created_at)).mpr hk
        rw [if_pos hhas, getDay_map, if_pos hk]
        rw [setDay_map grid g1 g2
          (fun x => if x = dayKeyOf a.created_at then g1 (dayKeyOf a.created_at) + 1 else g1 x)
          (fun x => if x = dayKeyOf a.created_at then g2 (dayKeyOf a.created_at) else g2 x)
          (dayKeyOf a.created_at) _ _ (fun x => rfl) (fun x => rfl) hhas]
        rw [ih]
        apply List.map_congr_left
        intro x hx
        by_cases hxk : x = dayKeyOf a.created_at
        · subst hxk
          simp only [eq_self_iff_true, if_true, List.filter_cons, beq_self_eq_true,
            List.length_cons, Prod.mk.injEq, true_and, and_true]
          omega
        · have hbeq : (dayKeyOf a.created_at == x) = false :=
            beq_eq_false_iff_ne.mpr (fun he => hxk he.symm)
          simp only [if_neg hxk, List.filter_cons, hbeq, Bool.false_eq_true, if_false]
      · have hhas : hasDay (grid.map fun x => (x, g1 x, g2 x)) (dayKeyOf a.created_at) = false := by
          rw [← Bool.not_eq_true]
          intro hc
          exact hk ((hasDay_map grid g1 g2 (dayKeyOf a.created_at)).mp hc)
        rw [hhas]
        show countCreated es (grid.map fun x => (x, g1 x, g2 x)) = _
        rw [ih]
        apply List.map_congr_left
        intro x hx
        have hbeq : (dayKeyOf a.created_at == x) = false :=
          beq_eq_false_iff_ne.mpr (fun he => hk (he ▸ hx))
        simp only [List.filter_cons, hbeq, Bool.false_eq_true, if_false]

theorem countCompleted_map : ∀ (es : List Activity) (grid : List Int) (g1 g2 : Int → Nat),
    countCompleted es (grid.map fun x => (x, g1 x, g2 x))
      = grid.map fun x =>
          (x, g1 x, g2 x + (es.filter fun a => dayKeyOf a.created_at == x).length) := by
  intro es
  induction es with
  | nil =>
      intro grid g1 g2
      show (grid.map fun x => (x, g1 x, g2 x)) = _
      apply List.map_congr_left
      intro x hx
      simp
  | cons a es ih =>
      intro grid g1 g2
      rw [countCompleted_cons]
      by_cases hk : dayKeyOf a.created_at ∈ grid
      · have hhas := (hasDay_map grid g1 g2 (dayKeyOf a.created_at)).mpr hk
        rw [if_pos hhas, getDay_map, if_pos hk]
        rw [setDay_map grid g1 g2
          (fun x => if x = dayKeyOf a.created_at then g1 (dayKeyOf a.created_at) else g1 x)
          (fun x => if x = dayKeyOf a.created_at then g2 (dayKeyOf a.created_at) + 1 else g2 x)
          (dayKeyOf a.created_at) _ _ (fun x => rfl) (fun x => rfl) hhas]
        rw [ih]
        apply List.map_congr_left
        intro x hx
        by_cases hxk : x = dayKeyOf a.created_at
        · subst hxk
          simp only [eq_self_iff_true, if_true, List.filter_cons, beq_self_eq_true,
            List.length_cons, Prod.mk.injEq, true_and, and_true]
          omega
        · have hbeq : (dayKeyOf a.created_at == x) = false :=
            beq_eq_false_iff_ne.mpr (fun he => hxk he.symm)
          simp only [if_neg hxk, List.filter_cons, hbeq, Bool.false_eq_true, if_false]
      · have hhas : hasDay (grid.map fun x => (x, g1 x, g2 x)) (dayKeyOf a.created_at) = false := by
          rw [← Bool.not_eq_true]
          intro hc
          exact hk ((hasDay_map grid g1 g2 (dayKeyOf a.created_at)).mp hc)
        rw [hhas]
        show countCompleted es (grid.map fun x => (x, g1 x, g2 x)) = _
        rw [ih]
        apply List.map_congr_left
        intro x hx
        have hbeq : (dayKeyOf a.created_at == x) = false :=
          beq_eq_false_iff_ne.mpr (fun he => hk (he ▸ hx))
        simp only [List.filter_cons, hbeq, Bool.false_eq_true, if_false]

theorem foldl_setDay_fresh : ∀ (ks : List Int) (m : List (Int × Nat × Nat)),
    (∀ d ∈ ks, hasDay m d = false) → ks.Nodup →
    ks.foldl (fun acc d => setDay acc d 0 0) m = m ++ ks.map fun d => (d, 0, 0) := by
  intro ks
  induction ks with
  | nil =>
      intro m _ _
      simp
  | cons k ks ih =>
      intro m hfresh hnd
      have hk : hasDay m k = false := hfresh k (List.mem_cons_self k ks)
      have hset : setDay m k 0 0 = m ++ [(k, 0, 0)] := by
        unfold setDay
        rw [hk]
        rfl
      have hfresh2 : ∀ d ∈ ks, hasDay (m ++ [(k, 0, 0)]) d = false := by
        intro d hd
        have h1 : hasDay m d = false := hfresh d (List.mem_cons_of_mem _ hd)
        have h2 : k ≠ d := by
          intro he
          exact (List.nodup_cons.mp hnd).1 (he ▸ hd)
        unfold hasDay at h1 ⊢
        rw [List.any_append, h1]
        simpa using h2
      rw [List.foldl_cons, hset, ih _ hfresh2 (List.nodup_cons.mp hnd).2]
      simp

theorem initDayMap_eq (start now : Int) (hnd : (dayKeys start now).Nodup) :
    initDayMap start now = (dayKeys start now).map fun d => (d, 0, 0) := by
  unfold initDayMap
  rw [foldl_setDay_fresh _ [] (fun d _ => rfl) hnd]
  rfl

/-- The computation core in closed form: one chart record per grid day,
counting each event list by the event's UTC date key. -/
theorem fetch_entries (tf : Timeframe) (now tz : Int) (created completed : List Activity)
    (hnd : (dayKeys (now - windowDays tf * msPerDay) now).Nodup) :
    fetchProductivityData tf now tz created completed
      = List.insertionSort chartOrder
          ((dayKeys (now - windowDays tf * msPerDay) now).map fun d =>
            ProductivityData.mk d (formatDate tz d)
              ((created.filter fun a => dayKeyOf a.created_at == d).length)
              ((completed.filter fun a => dayKeyOf a.created_at == d).length)) := by
  simp only [fetchProductivityData]
  rw [initDayMap_eq _ _ hnd]
  rw [countCreated_map created (dayKeys (now - windowDays tf * msPerDay) now)
    (fun _ => 0) (fun _ => 0)]
  rw [countCompleted_map completed (dayKeys (now - windowDays tf * msPerDay) now)
    (fun x => 0 + (created.filter fun a => dayKeyOf a.created_at == x).length) (fun _ => 0)]
  rw [List.map_map]
  congr 1
  apply List.map_congr_left
  intro d hd
  simp

theorem week_nodup (now : Int) :
    (dayKeys (now - windowDays Timeframe.week * msPerDay) now).Nodup :=
  dayKeys_nodup 7 now _ (by norm_num [windowDays])

theorem month_nodup (now : Int) :
    (dayKeys (now - windowDays Timeframe.month * msPerDay) now).Nodup :=
  dayKeys_nodup 30 now _ (by norm_num [windowDays])

/-- C9: over the week window with no events, the aggregator returns exactly 8
day entries (inclusive bounds), each with zero created and completed
counts. -/
theorem claim_C9_empty_week (now tz : Int) :
    (fetchProductivityData Timeframe.week now tz [] []).length = 8
    ∧ ∀ e ∈ fetchProductivityData Timeframe.week now tz [] [],
        e.created = 0 ∧ e.completed = 0 := by
  have hfe := fetch_entries Timeframe.week now tz [] [] (week_nodup now)
  constructor
  · rw [hfe, List.length_insertionSort, List.length_map,
      dayKeys_length 7 now _ (by norm_num [windowDays])]
  · intro e he
    rw [hfe] at he
    have he2 := (List.perm_insertionSort chartOrder _).mem_iff.mp he
    obtain ⟨d, hd, rfl⟩ := List.mem_map.mp he2
    exact ⟨rfl, rfl⟩

/-- Two instants share the classifier's local-midnight truncation exactly
when they share the local calendar-day index `localDayOf`. -/
theorem localMidnight_eq_iff (tz t u : Int) :
    localMidnight t tz = localMidnight u tz ↔ localDayOf t tz = localDayOf u tz := by
  have key : ∀ v : Int, localMidnight v tz = msPerDay * localDayOf v tz - tz := by
    intro v
    unfold localMidnight localDayOf
    have h := Int.fdiv_add_fmod (v + tz) msPerDay
    omega
  rw [key, key]
  unfold msPerDay
  omega

/-- C4 (amended): every chart entry counts exactly the events whose creation
timestamp truncates, in UTC, to the entry's date key — `toISOString` keys the
days in UTC — while the classifier's day notion is the local truncation
`localDayOf`; the two agree exactly in a client whose zone offset is zero. -/
theorem claim_C4_utc_day_keys (tf : Timeframe) (now tz : Int)
    (created completed : List Activity) :
    (∀ e ∈ fetchProductivityData tf now tz created completed,
      e.created = (created.filter fun a => dayKeyOf a.created_at == e.dayKey).length
      ∧ e.completed = (completed.filter fun a => dayKeyOf a.created_at == e.dayKey).length)
    ∧ (∀ t u : Int, localMidnight t tz = localMidnight u tz ↔ localDayOf t tz = localDayOf u tz)
    ∧ (∀ t : Int, dayKeyOf t = localDayOf t 0) := by
  refine ⟨?_, localMidnight_eq_iff tz, ?_⟩
  · intro e he
    have hnd : (dayKeys (now - windowDays tf * msPerDay) now).Nodup := by
      cases tf
      · exact week_nodup now
      · exact month_nodup now
    rw [fetch_entries tf now tz created completed hnd] at he
    have he2 := (List.perm_insertionSort chartOrder _).mem_iff.mp he
    obtain ⟨d, hd, rfl⟩ := List.mem_map.mp he2
    exact ⟨rfl, rfl⟩
  · intro t
    unfold dayKeyOf localDayOf
    norm_num

/-- The activity event of the C4 counterexample: created at
1970-01-01T23:30:00Z, which in a UTC+1 client is already January 2 local
time. -/
def exC4Event : Activity := ⟨"t1", "create", 84600000⟩

/-- C4 (counterexample): in a UTC+1 client (`tz = 3600000`), an event at
23:30 UTC belongs to local calendar day 1 — the day the classifier's
local-midnight truncation assigns it to — but the aggregator counts it into
the entry for UTC day 0, leaving the local day's entry at zero. -/
theorem claim_C4_counterexample :
    localDayOf exC4Event.created_at 3600000 = 1
    ∧ ((fetchProductivityData Timeframe.week (2 * 86400000) 3600000 [exC4Event] []).find?
        (fun e => e.dayKey == 1)).map ProductivityData.created = some 0
    ∧ ((fetchProductivityData Timeframe.week (2 * 86400000) 3600000 [exC4Event] []).find?
        (fun e => e.dayKey == 0)).map ProductivityData.created = some 1 := by
  decide

/-! ## Completion statistics: the forEach record equals the last-event view -/

theorem taskTimestamps_append (l : List Activity) (a : Activity) (taskId : String) :
    taskTimestamps (l ++ [a]) taskId = tsStep taskId (taskTimestamps l taskId) a := by
  unfold taskTimestamps
  rw [List.foldl_append]
  rfl

theorem specLastCreate_append (l : List Activity) (a : Activity) (taskId : String) :
    specLastCreate (l ++ [a]) taskId =
      if a.task_id == taskId && a.activity_type == "create" then some a.created_at
      else specLastCreate l taskId := by
  unfold specLastCreate
  rw [List.filter_append, List.map_append]
  cases hb : (a.task_id == taskId && a.activity_type == "create") with
  | true => simp [List.filter_cons, hb, List.getLast?_concat]
  | false => simp [List.filter_cons, hb]

theorem specLastComplete_append (l : List Activity) (a : Activity) (taskId : String) :
    specLastComplete (l ++ [a]) taskId =
      if a.task_id == taskId && a.activity_type == "complete" then some a.created_at
      else specLastComplete l taskId := by
  unfold specLastComplete
  rw [List.filter_append, List.map_append]
  cases hb : (a.task_id == taskId && a.activity_type == "complete") with
  | true => simp [List.filter_cons, hb, List.getLast?_concat]
  | false => simp [List.filter_cons, hb]

/-- The record slot for a task after the forEach holds exactly the last
`create` and last `complete` events for that task. -/
theorem taskTimestamps_eq_spec (activities : List Activity) (taskId : String) :
    taskTimestamps activities taskId
      = (specLastCreate activities taskId, specLastComplete activities taskId) := by
  induction activities using List.reverseRecOn with
  | nil => rfl
  | append_singleton l a ih =>
      rw [taskTimestamps_append, specLastCreate_append, specLastComplete_append, ih]
      unfold tsStep
      by_cases h1 : (a.task_id == taskId) = true
      · by_cases h2 : (a.activity_type == "create") = true
        · have he := beq_iff_eq.mp h2
          simp [h1, h2, he]
        · by_cases h3 : (a.activity_type == "complete") = true
          · have he := beq_iff_eq.mp h3
            simp [h1, h2, h3, he]
          · simp [h1, h2, h3]
      · simp [h1]

theorem filterMap_eq_map_filter {α β : Type} (f : α → Option β) (p : α → Bool) (g : α → β)
    (h : ∀ x, f x = if p x then some (g x) else none) :
    ∀ l : List α, l.filterMap f = (l.filter p).map g := by
  intro l
  induction l with
  | nil => rfl
  | cons x xs ih =>
      rw [List.filterMap_cons, List.filter_cons, h x]
      cases hp : p x <;> simp [hp, ih]

theorem completionPairs_eq (activities : List Activity) :
    completionPairs activities
      = ((activityTaskIds activities).filter fun taskId =>
          (specLastCreate activities taskId).isSome
            && (specLastComplete activities taskId).isSome).map
          fun taskId =>
            ((((specLastComplete activities taskId).getD 0
                - (specLastCreate activities taskId).getD 0 : Int) : ℚ) / (1000 * 60 * 60)) := by
  unfold completionPairs
  apply filterMap_eq_map_filter
  intro taskId
  rw [taskTimestamps_eq_spec]
  cases hc : specLastCreate activities taskId with
  | none => cases hd : specLastComplete activities taskId <;> simp
  | some c => cases hd : specLastComplete activities taskId <;> simp

def exC6 : List Activity :=
  [⟨"A", "create", 0⟩, ⟨"A", "complete", 7200000⟩, ⟨"B", "create", 3600000⟩]

/-- C6: the mean completion time of the source equals the spec-side mean
over exactly the tasks that have both a create and a complete event, and on
the A/B example (A: create and complete 2 hours apart, B: create only) it is
2 hours, not 1. -/
theorem claim_C6_mean_completion :
    (∀ activities : List Activity,
      averageCompletionTime activities = specMeanCompletionTime activities)
    ∧ averageCompletionTime exC6 = 2 := by
  constructor
  · intro activities
    unfold averageCompletionTime
    rw [completionPairs_eq]
    show _ = specMeanCompletionTime activities
    simp only [specMeanCompletionTime]
    rw [List.length_map]
    rcases Nat.eq_zero_or_pos ((activityTaskIds activities).filter fun taskId =>
        (specLastCreate activities taskId).isSome
          && (specLastComplete activities taskId).isSome).length with h | h
    · rw [if_neg (by omega), if_pos h]
    · rw [if_pos h, if_neg (by omega)]
  · have h : completionPairs exC6 = [((7200000 - 0 : Int) : ℚ) / (1000 * 60 * 60)] := rfl
    unfold averageCompletionTime
    rw [h]
    norm_num

/-! ## The dominant-category scan -/

def listMaxCount (count : String → Nat) : List String → Nat
  | [] => 0
  | c :: r => max (count c) (listMaxCount count r)

theorem le_listMaxCount (count : String → Nat) : ∀ (l : List String) (c : String), c ∈ l →
    count c ≤ listMaxCount count l := by
  intro l
  induction l with
  | nil =>
      intro c h
      simp at h
  | cons x r ih =>
      intro c h
      show _ ≤ max (count x) (listMaxCount count r)
      rcases List.mem_cons.mp h with rfl | h2
      · exact le_max_left _ _
      · exact le_trans (ih c h2) (le_max_right _ _)

theorem listMaxCount_le (count : String → Nat) : ∀ (l : List String) (k : Nat),
    (∀ c ∈ l, count c ≤ k) → listMaxCount count l ≤ k := by
  intro l
  induction l with
  | nil =>
      intro k _
      exact Nat.zero_le k
  | cons x r ih =>
      intro k h
      show max (count x) (listMaxCount count r) ≤ k
      have hx := h x (List.mem_cons_self x r)
      have hr := ih k (fun c hc => h c (List.mem_cons_of_mem _ hc))
      omega

theorem scan_const (count : String → Nat) : ∀ (l : List String) (m : Nat) (c₀ : String),
    (∀ c ∈ l, count c ≤ m) →
    l.foldl (fun acc cid => if count cid > acc.1 then (count cid, cid) else acc) (m, c₀)
      = (m, c₀) := by
  intro l
  induction l with
  | nil =>
      intro m c₀ _
      rfl
  | cons x r ih =>
      intro m c₀ h
      rw [List.foldl_cons]
      have hx : ¬ count x > m := by
        have := h x (List.mem_cons_self x r)
        omega
      rw [if_neg hx]
      exact ih m c₀ (fun c hc => h c (List.mem_cons_of_mem _ hc))

/-- The scan that updates only on a strictly greater count ends on the first
element attaining the maximum count, in left-to-right order. -/
theorem scan_picks_first (count : String → Nat) : ∀ (l : List String) (m : Nat) (c₀ : String),
    (∃ c ∈ l, m < count c) →
    (l.foldl (fun acc cid => if count cid > acc.1 then (count cid, cid) else acc) (m, c₀)).1
        = listMaxCount count l
    ∧ l.find? (fun c => count c == listMaxCount count l)
        = some (l.foldl (fun acc cid => if count cid > acc.1 then (count cid, cid) else acc)
            (m, c₀)).2 := by
  intro l
  induction l with
  | nil =>
      intro m c₀ h
      simp at h
  | cons x r ih =>
      intro m c₀ hex
      rw [List.foldl_cons]
      by_cases hx : count x > m
      · rw [if_pos hx]
        by_cases hr : ∃ c ∈ r, count x < count c
        · obtain ⟨hh1, hh2⟩ := ih (count x) x hr
          have hmax : listMaxCount count (x :: r) = listMaxCount count r := by
            show max (count x) _ = _
            obtain ⟨c, hc, hcl⟩ := hr
            have := le_listMaxCount count r c hc
            omega
          rw [hmax]
          refine ⟨hh1, ?_⟩
          have hne : (count x == listMaxCount count r) = false := by
            rw [beq_eq_false_iff_ne]
            obtain ⟨c, hc, hcl⟩ := hr
            have := le_listMaxCount count r c hc
            omega
          simp only [List.find?_cons, hne]
          exact hh2
        · push_neg at hr
          rw [scan_const count r (count x) x hr]
          have hmax : listMaxCount count (x :: r) = count x := by
            show max (count x) (listMaxCount count r) = count x
            have := listMaxCount_le count r (count x) hr
            omega
          rw [hmax]
          refine ⟨rfl, ?_⟩
          simp only [List.find?_cons, beq_self_eq_true]
      · rw [if_neg hx]
        have hex2 : ∃ c ∈ r, m < count c := by
          obtain ⟨c, hc, hm⟩ := hex
          rcases List.mem_cons.mp hc with rfl | hc2
          · omega
          · exact ⟨c, hc2, hm⟩
        obtain ⟨hh1, hh2⟩ := ih m c₀ hex2
        have hmax : listMaxCount count (x :: r) = listMaxCount count r := by
          show max (count x) _ = _
          obtain ⟨c, hc, hm⟩ := hex2
          have := le_listMaxCount count r c hc
          omega
        rw [hmax]
        refine ⟨hh1, ?_⟩
        have hne : (count x == listMaxCount count r) = false := by
          rw [beq_eq_false_iff_ne]
          obtain ⟨c, hc, hm⟩ := hex2
          have := le_listMaxCount count r c hc
          omega
        simp only [List.find?_cons, hne]
        exact hh2

/-- Every key of `categoryTasksMap` was inserted from a task rules 1-3 did
not claim, so its group is non-empty. -/
theorem categoryIds_aux (tasks : List TaskWithCategory) (now tz : Int) :
    ∀ (l : List TaskWithCategory) (acc : List String) (cid : String),
      cid ∈ l.foldl
        (fun ks task =>
          match task.category with
          | some c =>
              if !(anyId task.id (dueTodayTasks tasks now tz))
                  && !(anyId task.id (highPriorityTasks tasks now tz))
                  && !(anyId task.id (inProgressTasks tasks now tz)) then
                if ks.contains c.id then ks else ks ++ [c.id]
              else ks
          | none => ks) acc →
      cid ∈ acc ∨ ∃ task ∈ l, ∃ c, task.category = some c ∧ c.id = cid
        ∧ anyId task.id (dueTodayTasks tasks now tz) = false
        ∧ anyId task.id (highPriorityTasks tasks now tz) = false
        ∧ anyId task.id (inProgressTasks tasks now tz) = false := by
  intro l
  induction l with
  | nil =>
      intro acc cid h
      exact Or.inl h
  | cons task l ih =>
      intro acc cid h
      rw [List.foldl_cons] at h
      rcases ih _ cid h with hacc | ⟨u, hu, rest⟩
      · cases hcat : task.category with
        | none =>
            rw [hcat] at hacc
            exact Or.inl hacc
        | some c =>
            simp only [hcat] at hacc
            by_cases helig : (!(anyId task.id (dueTodayTasks tasks now tz))
                && !(anyId task.id (highPriorityTasks tasks now tz))
                && !(anyId task.id (inProgressTasks tasks now tz))) = true
            · rw [if_pos helig] at hacc
              by_cases hcon : (acc.contains c.id) = true
              · rw [if_pos hcon] at hacc
                exact Or.inl hacc
              · rw [if_neg hcon] at hacc
                rcases List.mem_append.mp hacc with hin | hin
                · exact Or.inl hin
                · have hcid : cid = c.id := by simpa using hin
                  subst hcid
                  simp only [Bool.and_eq_true, Bool.not_eq_true'] at helig
                  exact Or.inr ⟨task, List.mem_cons_self task l, c, hcat, rfl,
                    helig.1.1, helig.1.2, helig.2⟩
            · rw [if_neg helig] at hacc
              exact Or.inl hacc
      · exact Or.inr ⟨u, List.mem_cons_of_mem _ hu, rest⟩

theorem mem_categoryIds_pos (tasks : List TaskWithCategory) (now tz : Int) (cid : String)
    (h : cid ∈ categoryIds tasks now tz) :
    0 < (categoryGroup tasks now tz cid).length := by
  unfold categoryIds at h
  rcases categoryIds_aux tasks now tz tasks [] cid h with hacc |
    ⟨task, htask, c, hcat, hcid, h1, h2, h3⟩
  · simp at hacc
  · have hg := mem_group_intro htask hcat h1 h2 h3
    rw [hcid] at hg
    exact List.length_pos_of_mem hg

theorem filter_ite_singleton_neg {α : Type} (p : α → Bool) (c : Prop) [Decidable c] (x : α)
    (h : p x = false) : (if c then [x] else ([] : List α)).filter p = [] := by
  split <;> simp [h]

/-- C8: on a tie for the largest remaining-task count, the scan picks the
first category attaining the maximum in map-iteration order, and the pass
emits exactly one dominant-category bucket, holding only that category's
remaining tasks and named from it. -/
theorem claim_C8_dominant_tie (tasks : List TaskWithCategory) (now tz : Int) (c₁ c₂ : String)
    (h₁ : c₁ ∈ categoryIds tasks now tz) (h₂ : c₂ ∈ categoryIds tasks now tz)
    (hne : c₁ ≠ c₂)
    (ht₁ : (categoryGroup tasks now tz c₁).length
      = listMaxCount (fun cid => (categoryGroup tasks now tz cid).length)
          (categoryIds tasks now tz))
    (ht₂ : (categoryGroup tasks now tz c₂).length
      = listMaxCount (fun cid => (categoryGroup tasks now tz cid).length)
          (categoryIds tasks now tz))
    (hids : ∀ cid ∈ categoryIds tasks now tz, cid ≠ "") :
    (categoryIds tasks now tz).find?
        (fun cid => (categoryGroup tasks now tz cid).length
          == listMaxCount (fun cid => (categoryGroup tasks now tz cid).length)
              (categoryIds tasks now tz))
      = some (mainCategoryId tasks now tz)
    ∧ (generateSmartContexts tasks now tz).filter
        (fun ctx => ctx.id == "category-" ++ mainCategoryId tasks now tz)
      = [ctxCategory tasks now tz]
    ∧ (ctxCategory tasks now tz).tasks
        = categoryGroup tasks now tz (mainCategoryId tasks now tz)
    ∧ (∀ u ∈ categoryGroup tasks now tz (mainCategoryId tasks now tz),
        ∃ cu, u.category = some cu ∧ cu.id = mainCategoryId tasks now tz)
    ∧ (ctxCategory tasks now tz).name = "Focus: "
        ++ headCategoryName (categoryGroup tasks now tz (mainCategoryId tasks now tz)) := by
  have hex : ∃ c ∈ categoryIds tasks now tz,
      0 < (fun cid => (categoryGroup tasks now tz cid).length) c :=
    ⟨c₁, h₁, mem_categoryIds_pos tasks now tz c₁ h₁⟩
  have hsp := scan_picks_first (fun cid => (categoryGroup tasks now tz cid).length)
    (categoryIds tasks now tz) 0 "" hex
  have hfind : (categoryIds tasks now tz).find?
      (fun cid => (categoryGroup tasks now tz cid).length
        == listMaxCount (fun cid => (categoryGroup tasks now tz cid).length)
            (categoryIds tasks now tz))
      = some (mainCategoryId tasks now tz) := hsp.2
  have hmem : mainCategoryId tasks now tz ∈ categoryIds tasks now tz :=
    List.mem_of_find?_eq_some hfind
  have hmain_ne : mainCategoryId tasks now tz ≠ "" := hids _ hmem
  have hpos : 0 < (categoryGroup tasks now tz (mainCategoryId tasks now tz)).length :=
    mem_categoryIds_pos tasks now tz _ hmem
  have hcc : categoryContexts tasks now tz = [ctxCategory tasks now tz] := by
    unfold categoryContexts
    rw [if_pos ⟨hmain_ne, hpos⟩]
  refine ⟨hfind, ?_, rfl, ?_, rfl⟩
  · unfold generateSmartContexts
    rw [hcc]
    rw [List.filter_append, List.filter_append, List.filter_append, List.filter_append,
      List.filter_append]
    rw [filter_ite_singleton_neg
      (fun ctx => ctx.id == "category-" ++ mainCategoryId tasks now tz)
      (0 < (dueTodayTasks tasks now tz).length) (ctxDueToday tasks now tz)
      (beq_eq_false_iff_ne.mpr (Ne.symm ((categoryCtx_id_ne (mainCategoryId tasks now tz)).1)))]
    rw [filter_ite_singleton_neg
      (fun ctx => ctx.id == "category-" ++ mainCategoryId tasks now tz)
      (0 < (highPriorityTasks tasks now tz).length) (ctxHighPriority tasks now tz)
      (beq_eq_false_iff_ne.mpr (Ne.symm ((categoryCtx_id_ne (mainCategoryId tasks now tz)).2.1)))]
    rw [filter_ite_singleton_neg
      (fun ctx => ctx.id == "category-" ++ mainCategoryId tasks now tz)
      (0 < (inProgressTasks tasks now tz).length) (ctxTimeBased tasks now tz)
      (beq_eq_false_iff_ne.mpr
        (Ne.symm ((categoryCtx_id_ne (mainCategoryId tasks now tz)).2.2.1)))]
    rw [filter_ite_singleton_neg
      (fun ctx => ctx.id == "category-" ++ mainCategoryId tasks now tz)
      (0 < (recentlyCreatedTasks tasks now tz).length) (ctxRecentlyCreated tasks now tz)
      (beq_eq_false_iff_ne.mpr
        (Ne.symm ((categoryCtx_id_ne (mainCategoryId tasks now tz)).2.2.2.1)))]
    rw [filter_ite_singleton_neg
      (fun ctx => ctx.id == "category-" ++ mainCategoryId tasks now tz)
      (0 < (remainingTasks tasks now tz).length) (ctxOther tasks now tz)
      (beq_eq_false_iff_ne.mpr
        (Ne.symm ((categoryCtx_id_ne (mainCategoryId tasks now tz)).2.2.2.2)))]
    simp [ctxCategory]
  · intro u hu
    exact (mem_group_parts hu).2.1

theorem claim_C8_witness :
    "a" ∈ categoryIds exTasks 0 0 ∧ "b" ∈ categoryIds exTasks 0 0 ∧ ("a" : String) ≠ "b"
    ∧ (categoryGroup exTasks 0 0 "a").length
      = listMaxCount (fun cid => (categoryGroup exTasks 0 0 cid).length) (categoryIds exTasks 0 0)
    ∧ (categoryGroup exTasks 0 0 "b").length
      = listMaxCount (fun cid => (categoryGroup exTasks 0 0 cid).length) (categoryIds exTasks 0 0)
    ∧ (∀ cid ∈ categoryIds exTasks 0 0, cid ≠ "")
    ∧ ((categoryIds exTasks 0 0).find?
        (fun cid => (categoryGroup exTasks 0 0 cid).length
          == listMaxCount (fun cid => (categoryGroup exTasks 0 0 cid).length)
              (categoryIds exTasks 0 0))
      = some (mainCategoryId exTasks 0 0)
      ∧ (generateSmartContexts exTasks 0 0).filter
          (fun ctx => ctx.id == "category-" ++ mainCategoryId exTasks 0 0)
        = [ctxCategory exTasks 0 0]
      ∧ (ctxCategory exTasks 0 0).tasks = categoryGroup exTasks 0 0 (mainCategoryId exTasks 0 0)
      ∧ (∀ u ∈ categoryGroup exTasks 0 0 (mainCategoryId exTasks 0 0),
          ∃ cu, u.category = some cu ∧ cu.id = mainCategoryId exTasks 0 0)
      ∧ (ctxCategory exTasks 0 0).name = "Focus: "
          ++ headCategoryName (categoryGroup exTasks 0 0 (mainCategoryId exTasks 0 0))) :=
  ⟨by decide, by decide, by decide, by decide, by decide, by decide,
   claim_C8_dominant_tie exTasks 0 0 "a" "b" (by decide) (by decide) (by decide) (by decide)
     (by decide) (by decide)⟩

end TaskApp
